import Mathlib

/-!
Verification of the asynchronous command-execution engine of deno-mcp-cmd.

The development shallowly embeds the engine's data model and operations:

* bytes are lists of naturals below 256, JavaScript strings are lists of
  Unicode code points;
* the base64 codec models the btoa / encodeBase64 / decodeBase64 calls of
  src/workers/command-worker.ts and src/db/ouputs.ts;
* the record store (src/db/ouputs.ts) is an association list keyed by the
  nine-digit output id, with insertOutput, updateOutput and
  updateStreamOutput translated statement by statement;
* the worker pool (src/workers/worker-pool.ts) together with the command
  layer (src/command.ts) is a deterministic transition system whose
  operations are command submission, cancellation, worker events posted
  into the pool's message inbox, delivery of the next inbox message and
  worker crash.

Floating point detail: the source compares controlChars with
data.length * 0.1 in JavaScript doubles; the embedding uses the exact
comparison 10 * controlChars > data.length, which agrees with the double
computation for every list length below 10^15.
-/

/-- Raw bytes (each entry is intended to lie below 256). -/
abbrev Bytes := List Nat

/-- A JavaScript string, modelled as its list of Unicode code points. -/
abbrev JSString := List Nat

/-- Code points of a Lean string literal, for concrete message constants. -/
def strCodes (s : String) : JSString := s.data.map Char.toNat

/-- All entries of a byte list lie below 256. -/
def ValidBytes (bs : Bytes) : Prop := ∀ x ∈ bs, x < 256

/-! ### Base64 codec

Models the standard base64 alphabet used by btoa in the worker and by the
encodeBase64 / decodeBase64 functions of the std encoding library. -/

/-- ASCII code of the base64 character for a sextet. -/
def b64char (n : Nat) : Nat :=
  if n < 26 then 65 + n
  else if n < 52 then 97 + (n - 26)
  else if n < 62 then 48 + (n - 52)
  else if n = 62 then 43
  else 47

/-- Sextet value of a base64 ASCII code (inverse of b64char on the alphabet). -/
def b64inv (c : Nat) : Nat :=
  if 65 ≤ c ∧ c ≤ 90 then c - 65
  else if 97 ≤ c ∧ c ≤ 122 then 26 + (c - 97)
  else if 48 ≤ c ∧ c ≤ 57 then 52 + (c - 48)
  else if c = 43 then 62
  else 63

/-- Base64 encoding of a byte list, as the list of ASCII codes of the
encoded text (61 is the pad character). -/
def encodeBase64 : Bytes → JSString
  | [] => []
  | [a] => [b64char (a / 4), b64char (a % 4 * 16), 61, 61]
  | [a, b] => [b64char (a / 4), b64char (a % 4 * 16 + b / 16), b64char (b % 16 * 4), 61]
  | a :: b :: c :: rest =>
      b64char (a / 4) :: b64char (a % 4 * 16 + b / 16) ::
        b64char (b % 16 * 4 + c / 64) :: b64char (c % 64) :: encodeBase64 rest

/-- Base64 decoding of a list of ASCII codes back to bytes; on canonical
encodings (outputs of encodeBase64) it recovers the original bytes. -/
def decodeBase64 : JSString → Bytes
  | x :: y :: z :: w :: rest =>
      if w = 61 then
        if z = 61 then [b64inv x * 4 + b64inv y / 16]
        else [b64inv x * 4 + b64inv y / 16, b64inv y % 16 * 16 + b64inv z / 4]
      else
        (b64inv x * 4 + b64inv y / 16) :: (b64inv y % 16 * 16 + b64inv z / 4) ::
          (b64inv z % 4 * 64 + b64inv w) :: decodeBase64 rest
  | _ => []

theorem b64inv_b64char : ∀ n, n < 64 → b64inv (b64char n) = n := by decide

theorem b64char_ne_pad (n : Nat) : b64char n ≠ 61 := by
  unfold b64char
  split
  · omega
  · split
    · omega
    · split
      · omega
      · split <;> omega

/-- Decoding a base64 encoding recovers the original bytes. -/
theorem decodeBase64_encodeBase64 :
    ∀ l : Bytes, ValidBytes l → decodeBase64 (encodeBase64 l) = l
  | [], _ => by simp [encodeBase64, decodeBase64]
  | [a], h => by
      have ha : a < 256 := h a (by simp)
      have h1 : a / 4 < 64 := by omega
      have h2 : a % 4 * 16 < 64 := by omega
      simp only [encodeBase64, decodeBase64, if_pos rfl,
        b64inv_b64char _ h1, b64inv_b64char _ h2]
      simp
      omega
  | [a, b], h => by
      have ha : a < 256 := h a (by simp)
      have hb : b < 256 := h b (by simp)
      have h1 : a / 4 < 64 := by omega
      have h2 : a % 4 * 16 + b / 16 < 64 := by omega
      have h3 : b % 16 * 4 < 64 := by omega
      simp only [encodeBase64, decodeBase64, if_pos rfl,
        if_neg (b64char_ne_pad (b % 16 * 4)),
        b64inv_b64char _ h1, b64inv_b64char _ h2, b64inv_b64char _ h3]
      simp
      omega
  | [a, b, c], h => by
      have ha : a < 256 := h a (by simp)
      have hb : b < 256 := h b (by simp)
      have hc : c < 256 := h c (by simp)
      have h1 : a / 4 < 64 := by omega
      have h2 : a % 4 * 16 + b / 16 < 64 := by omega
      have h3 : b % 16 * 4 + c / 64 < 64 := by omega
      have h4 : c % 64 < 64 := by omega
      simp only [encodeBase64, decodeBase64, if_neg (b64char_ne_pad (c % 64)),
        b64inv_b64char _ h1, b64inv_b64char _ h2, b64inv_b64char _ h3, b64inv_b64char _ h4]
      have e1 : a / 4 * 4 + (a % 4 * 16 + b / 16) / 16 = a := by omega
      have e2 : (a % 4 * 16 + b / 16) % 16 * 16 + (b % 16 * 4 + c / 64) / 4 = b := by omega
      have e3 : (b % 16 * 4 + c / 64) % 4 * 64 + c % 64 = c := by omega
      rw [e1, e2, e3]
  | a :: b :: c :: d :: rest, h => by
      have ha : a < 256 := h a (by simp)
      have hb : b < 256 := h b (by simp)
      have hc : c < 256 := h c (by simp)
      have h1 : a / 4 < 64 := by omega
      have h2 : a % 4 * 16 + b / 16 < 64 := by omega
      have h3 : b % 16 * 4 + c / 64 < 64 := by omega
      have h4 : c % 64 < 64 := by omega
      have ih := decodeBase64_encodeBase64 (d :: rest)
        (fun x hx => h x (by simp at hx ⊢; tauto))
      simp only [encodeBase64, decodeBase64, if_neg (b64char_ne_pad (c % 64)),
        b64inv_b64char _ h1, b64inv_b64char _ h2, b64inv_b64char _ h3, b64inv_b64char _ h4]
      have e1 : a / 4 * 4 + (a % 4 * 16 + b / 16) / 16 = a := by omega
      have e2 : (a % 4 * 16 + b / 16) % 16 * 16 + (b % 16 * 4 + c / 64) / 4 = b := by omega
      have e3 : (b % 16 * 4 + c / 64) % 4 * 64 + c % 64 = c := by omega
      rw [e1, e2, e3, ih]

/-! ### UTF-8 codec

Models TextEncoder().encode (code points to bytes) and the non-fatal
TextDecoder (bytes to code points, invalid sequences replaced by U+FFFD)
used by src/db/ouputs.ts and the worker. -/

/-- UTF-8 bytes of one code point (TextEncoder). -/
def utf8EncodeChar (cp : Nat) : Bytes :=
  if cp < 128 then [cp]
  else if cp < 2048 then [192 + cp / 64, 128 + cp % 64]
  else if cp < 65536 then [224 + cp / 4096, 128 + cp / 64 % 64, 128 + cp % 64]
  else [240 + cp / 262144, 128 + cp / 4096 % 64, 128 + cp / 64 % 64, 128 + cp % 64]

/-- TextEncoder().encode: UTF-8 bytes of a string. -/
def utf8Encode (s : JSString) : Bytes := (s.map utf8EncodeChar).flatten

/-- Whether a byte is a UTF-8 continuation byte (10xxxxxx). -/
def isCont (b : Nat) : Bool := decide (128 ≤ b ∧ b ≤ 191)

/-- Lossy UTF-8 decoding with explicit fuel (the fuel is the input length,
and every step consumes at least one byte). Invalid bytes become the
replacement character 65533. -/
def utf8DecodeLossyAux : Nat → Bytes → JSString
  | 0, _ => []
  | _ + 1, [] => []
  | fuel + 1, b :: rest =>
    if b < 128 then b :: utf8DecodeLossyAux fuel rest
    else if 194 ≤ b ∧ b ≤ 223 then
      match rest with
      | c :: rest2 =>
        if isCont c then ((b - 192) * 64 + (c - 128)) :: utf8DecodeLossyAux fuel rest2
        else 65533 :: utf8DecodeLossyAux fuel rest
      | [] => [65533]
    else if 224 ≤ b ∧ b ≤ 239 then
      match rest with
      | c :: d :: rest3 =>
        if isCont c && isCont d &&
            !(b = 224 && c < 160) && !(b = 237 && 160 ≤ c) then
          ((b - 224) * 4096 + (c - 128) * 64 + (d - 128)) :: utf8DecodeLossyAux fuel rest3
        else 65533 :: utf8DecodeLossyAux fuel rest
      | _ => 65533 :: utf8DecodeLossyAux fuel rest
    else if 240 ≤ b ∧ b ≤ 244 then
      match rest with
      | c :: d :: e :: rest4 =>
        if isCont c && isCont d && isCont e &&
            !(b = 240 && c < 144) && !(b = 244 && 143 < c) then
          ((b - 240) * 262144 + (c - 128) * 4096 + (d - 128) * 64 + (e - 128)) ::
            utf8DecodeLossyAux fuel rest4
        else 65533 :: utf8DecodeLossyAux fuel rest
      | _ => 65533 :: utf8DecodeLossyAux fuel rest
    else 65533 :: utf8DecodeLossyAux fuel rest

/-- Non-streaming TextDecoder().decode with replacement on errors. -/
def utf8DecodeLossy (bs : Bytes) : JSString := utf8DecodeLossyAux bs.length bs

/-- Expected length of the UTF-8 sequence whose lead byte is b, or 0 when
b cannot start a sequence. -/
def utf8SeqLen (b : Nat) : Nat :=
  if 194 ≤ b ∧ b ≤ 223 then 2
  else if 224 ≤ b ∧ b ≤ 239 then 3
  else if 240 ≤ b ∧ b ≤ 244 then 4
  else 0

/-- Number of trailing bytes a streaming TextDecoder keeps back because
they may be the beginning of a code point split across chunks. -/
def utf8HoldbackLen (bs : Bytes) : Nat :=
  match bs.reverse with
  | [] => 0
  | a :: tail =>
    if 1 < utf8SeqLen a then 1
    else if isCont a then
      match tail with
      | [] => 0
      | b :: tail2 =>
        if 2 < utf8SeqLen b then 2
        else if isCont b then
          match tail2 with
          | [] => 0
          | c :: _ => if 3 < utf8SeqLen c then 3 else 0
        else 0
    else 0

/-- One step of a streaming TextDecoder (decoder.decode(chunk, stream))
with the pending bytes carried between chunks: decodes the complete part
of pending plus chunk and keeps back a possibly incomplete trailing
sequence. -/
def streamingDecodeStep (pending chunk : Bytes) : JSString × Bytes :=
  let bs := pending ++ chunk
  let hb := utf8HoldbackLen bs
  (utf8DecodeLossy (bs.take (bs.length - hb)), bs.drop (bs.length - hb))

/-! ### Stream classifier (isBinaryData, src/workers/command-worker.ts) -/

/-- Count of control characters other than tab, newline and carriage
return among the first 1024 bytes of the chunk. -/
def controlCharCount (data : Bytes) : Nat :=
  ((data.take 1024).filter
    (fun b => decide (b < 32) && !(b == 9) && !(b == 10) && !(b == 13))).length

/-- isBinaryData of src/workers/command-worker.ts: a chunk is binary when
a NUL byte occurs in the first 1024 bytes, or when the control characters
counted among the first 1024 bytes exceed a tenth of the whole chunk
length (the source multiplies data.length by 0.1). -/
def isBinaryData (data : Bytes) : Bool :=
  if data.length = 0 then false
  else if (data.take 1024).any (fun b => b == 0) then true
  else decide (10 * controlCharCount data > data.length)

/-- Modelled from the spec: the classifier of section 4.2 step 1 as the
spec words it, with the control-character percentage taken over the first
1024 bytes of the chunk rather than over the whole chunk. -/
def isBinaryDataSpec (data : Bytes) : Bool :=
  (data.take 1024).any (fun b => b == 0) ||
    decide (10 * controlCharCount data > (data.take 1024).length)

/-! ### Execution records and the record store (src/db/ouputs.ts) -/

/-- Execution status. -/
inductive CommandStatus
  | running
  | completed
  | failed
  deriving Repr, DecidableEq

/-- Output channel of a process. -/
inductive Channel
  | stdout
  | stderr
  deriving Repr, DecidableEq

/-- One row of the outputs table (createdAt, which no claim touches, is
not modelled). -/
structure OutputRecord where
  stdout : JSString
  stdoutIsEncoded : Bool
  stderr : JSString
  stderrIsEncoded : Bool
  status : CommandStatus
  exitCode : Option Int
  cwd : JSString
  deriving Repr, DecidableEq

/-- The outputs table: an association list keyed by output id. -/
abbrev Store := List (JSString × OutputRecord)

/-- isOutputId / OutputIdSchema: a nine-digit numeric string. -/
def isOutputId (id : JSString) : Bool :=
  decide (id.length = 9) && id.all (fun c => decide (48 ≤ c ∧ c ≤ 57))

/-- getOutputById including the validation and database errors it can
raise (error values are the thrown messages). -/
def getOutputByIdE (dbError : Option JSString) (st : Store) (id : JSString) :
    Except JSString (Option OutputRecord) :=
  if isOutputId id = false then .error (strCodes "Invalid output ID format")
  else
    match dbError with
    | some m => .error m
    | none => .ok ((st.find? (fun e => decide (e.1 = id))).map (fun e => e.2))

/-- getOutputById as its catching callers observe it on a healthy
database: a thrown error and an absent row both give none. -/
def getOutputById (st : Store) (id : JSString) : Option OutputRecord :=
  match getOutputByIdE none st id with
  | .ok r => r
  | .error _ => none

/-- The partial-update argument of updateOutput. -/
structure UpdateOutputParams where
  stdout : Option JSString
  stdoutIsEncoded : Option Bool
  stderr : Option JSString
  stderrIsEncoded : Option Bool
  status : Option CommandStatus
  exitCode : Option (Option Int)
  deriving Repr, DecidableEq

/-- The empty update (every field absent). -/
def noUpdate : UpdateOutputParams :=
  ⟨none, none, none, none, none, none⟩

/-- Merge the provided fields of an update into a record. -/
def applyUpdate (r : OutputRecord) (u : UpdateOutputParams) : OutputRecord :=
  { r with
    stdout := u.stdout.getD r.stdout,
    stdoutIsEncoded := u.stdoutIsEncoded.getD r.stdoutIsEncoded,
    stderr := u.stderr.getD r.stderr,
    stderrIsEncoded := u.stderrIsEncoded.getD r.stderrIsEncoded,
    status := u.status.getD r.status,
    exitCode := u.exitCode.getD r.exitCode }

/-- updateOutput: the SQL UPDATE applies the provided fields to every row
whose id matches (the function throws when the affected-row count is not
one, but its callers in the engine catch that, so only the table effect is
modelled). -/
def updateOutput (st : Store) (id : JSString) (u : UpdateOutputParams) : Store :=
  st.map (fun e => if e.1 = id then (e.1, applyUpdate e.2 u) else e)

/-- insertOutput as runCommand invokes it: a fresh row with empty output,
status running and a null exit code. -/
def insertInitialOutput (st : Store) (id : JSString) (cwd : JSString) : Store :=
  (id, ⟨[], false, [], false, .running, none, cwd⟩) :: st

/-- The content argument of updateStreamOutput: a JavaScript string or a
Uint8Array. -/
inductive StreamContent
  | str (s : JSString)
  | bytes (b : Bytes)
  deriving Repr, DecidableEq

/-- updateStreamOutput of src/db/ouputs.ts: merge one arriving chunk into
the stored channel. Any thrown error (record not found, update failure) is
caught and logged, leaving the store unchanged. -/
def updateStreamOutput (st : Store) (id : JSString) (streamType : Channel)
    (content : StreamContent) (isBinary : Bool) : Store :=
  match getOutputById st id with
  | none => st
  | some cur =>
    match streamType with
    | .stdout =>
      let willBeEncoded := isBinary || cur.stdoutIsEncoded
      let updatedStdout : JSString :=
        if willBeEncoded then
          let existingData :=
            if cur.stdoutIsEncoded then decodeBase64 cur.stdout else utf8Encode cur.stdout
          let newData :=
            match content with
            | .str s => utf8Encode s
            | .bytes b => b
          encodeBase64 (existingData ++ newData)
        else
          cur.stdout ++
            (match content with
             | .str s => s
             | .bytes b => utf8DecodeLossy b)
      updateOutput st id
        { noUpdate with stdout := some updatedStdout, stdoutIsEncoded := some willBeEncoded }
    | .stderr =>
      let willBeEncoded := isBinary || cur.stderrIsEncoded
      let updatedStderr : JSString :=
        if willBeEncoded then
          let existingData :=
            if cur.stderrIsEncoded then decodeBase64 cur.stderr else utf8Encode cur.stderr
          let newData :=
            match content with
            | .str s => utf8Encode s
            | .bytes b => b
          encodeBase64 (existingData ++ newData)
        else
          cur.stderr ++
            (match content with
             | .str s => s
             | .bytes b => utf8DecodeLossy b)
      updateOutput st id
        { noUpdate with stderr := some updatedStderr, stderrIsEncoded := some willBeEncoded }

/-! ### Worker-side stream processing (src/workers/command-worker.ts) -/

/-- The data notification a worker posts for one chunk. -/
structure StreamData where
  stream : Channel
  content : JSString
  isEncoded : Bool
  deriving Repr, DecidableEq

/-- One iteration of the processStream read loop: the streaming decoder
always consumes the chunk, the chunk is classified, and the posted content
is btoa of the raw bytes when binary and the decoded text otherwise. -/
def processStreamChunk (streamType : Channel) (pending chunk : Bytes) :
    StreamData × Bytes :=
  let dec := streamingDecodeStep pending chunk
  let isEncoded := isBinaryData chunk
  let content := if isEncoded then encodeBase64 chunk else dec.1
  (⟨streamType, content, isEncoded⟩, dec.2)

/-- processStream over a whole sequence of chunks: the list of posted data
notifications, with the decoder state threaded through. -/
def processStreamChunks (streamType : Channel) (chunks : List Bytes) :
    List StreamData :=
  (chunks.foldl
    (fun (acc : List StreamData × Bytes) ch =>
      let step := processStreamChunk streamType acc.2 ch
      (acc.1 ++ [step.1], step.2))
    ([], [])).1

/-- The full streaming path for one channel: the worker processes every
chunk and the pool merges each posted notification into the record via
updateStreamOutput (handleStreamData passes the posted string content and
the posted isEncoded flag). -/
def runStreamPipeline (st : Store) (id : JSString) (streamType : Channel)
    (chunks : List Bytes) : Store :=
  (processStreamChunks streamType chunks).foldl
    (fun s d => updateStreamOutput s id d.stream (.str d.content) d.isEncoded) st

/-! ### Status queries (src/command.ts) -/

/-- Result of getCommandStatus. -/
inductive StatusResult
  | notFound
  | found (s : CommandStatus)
  deriving Repr, DecidableEq

/-- getCommandStatus: look the record up, mapping an absent record and any
thrown error to the not-found answer. -/
def getCommandStatus (dbError : Option JSString) (st : Store) (id : JSString) :
    StatusResult :=
  match getOutputByIdE dbError st id with
  | .error _ => .notFound
  | .ok none => .notFound
  | .ok (some r) => .found r.status

/-- The progress object getCommandProgress builds. -/
structure CommandProgress where
  status : CommandStatus
  exitCode : Option Int
  hasOutput : Bool
  stdout : JSString
  stderr : JSString
  stdoutIsEncoded : Bool
  stderrIsEncoded : Bool
  deriving Repr, DecidableEq

/-- getCommandProgress: like getCommandStatus but returning the full
progress object, with null for every failure. -/
def getCommandProgress (dbError : Option JSString) (st : Store) (id : JSString) :
    Option CommandProgress :=
  match getOutputByIdE dbError st id with
  | .error _ => none
  | .ok none => none
  | .ok (some r) =>
      some ⟨r.status, r.exitCode,
        decide (0 < r.stdout.length) || decide (0 < r.stderr.length),
        r.stdout, r.stderr, r.stdoutIsEncoded, r.stderrIsEncoded⟩

/-! ### Stdin resolution of the runCommand tool (src/mcp/server.ts) -/

/-- Outcome of the stdin-resolution closure in the runCommand tool
handler. -/
inductive StdinResolution
  | conflictError
  | invalidIdError
  | notFoundError
  | resolved (v : Option JSString)
  deriving Repr, DecidableEq

/-- JavaScript truthiness of an optional string: present and non-empty. -/
def truthyStr (s : Option JSString) : Bool :=
  match s with
  | none => false
  | some v => !(v.isEmpty)

/-- The stdin-resolution closure of the runCommand tool handler, line by
line: the conflict test and the two early returns use JavaScript
truthiness of the raw argument strings; the reference path validates the
id, requires the record and decodes its stdout when encoded. -/
def resolveStdinContent (st : Store) (stdin stdinForOutput : Option JSString) :
    StdinResolution :=
  if truthyStr stdin && truthyStr stdinForOutput then .conflictError
  else if truthyStr stdin && !(truthyStr stdinForOutput) then .resolved stdin
  else if !(truthyStr stdinForOutput) then .resolved none
  else
    match stdinForOutput with
    | none => .resolved none
    | some ref =>
      if isOutputId ref = false then .invalidIdError
      else
        match getOutputById st ref with
        | none => .notFoundError
        | some output =>
          if output.stdoutIsEncoded then
            .resolved (some (utf8DecodeLossy (decodeBase64 output.stdout)))
          else .resolved (some output.stdout)

/-! ### The worker pool and command layer as a transition system

src/workers/worker-pool.ts and src/command.ts. Worker threads communicate
with the pool only through messages; the message queue from the workers to
the pool is modelled explicitly (inbox), so that a posted but not yet
processed completion can overlap a cancellation exactly as in the event
loop. Promise resolution and rejection carry no engine state and are not
modelled. The submitted, assigned and cancelledFromQueue fields are ghost
counters used only to state invariants; no operation reads them. -/

/-- A task waiting in the pool queue. -/
structure QueuedTask where
  id : JSString
  deriving Repr, DecidableEq

/-- A pool worker. procRunning mirrors the worker thread's
runningProcesses map: whether the spawned process of the current task is
still registered there. -/
structure WorkerInstance where
  wid : Nat
  busy : Bool
  currentTask : Option JSString
  procRunning : Bool
  deriving Repr, DecidableEq

/-- A message a worker thread has posted to the pool but the pool has not
yet processed. -/
inductive WorkerMsg
  | started
  | data (d : StreamData)
  | complete (exitCode : Int)
  | error (msg : JSString)
  deriving Repr, DecidableEq

/-- An inbox entry: the posting task's id together with the message. -/
structure InboxMsg where
  id : JSString
  msg : WorkerMsg
  deriving Repr, DecidableEq

/-- The engine state: record store, pool bookkeeping and the in-flight
worker messages. -/
structure EngineState where
  store : Store
  workers : List WorkerInstance
  queue : List QueuedTask
  maxWorkers : Nat
  currentWorkers : Nat
  inbox : List InboxMsg
  submitted : Nat
  assigned : Nat
  cancelledFromQueue : Nat
  deriving Repr, DecidableEq

/-- The constructor's worker-count computation: a falsy (absent or zero)
requested maximum falls back to half the hardware concurrency (itself
defaulted to 4 when falsy), with a minimum of one. -/
def effectiveMaxWorkers (requested : Option Nat) (hardwareConcurrency : Nat) : Nat :=
  match requested with
  | some n => if n = 0 then max 1 ((if hardwareConcurrency = 0 then 4 else hardwareConcurrency) / 2) else n
  | none => max 1 ((if hardwareConcurrency = 0 then 4 else hardwareConcurrency) / 2)

/-- A freshly constructed pool with an empty store. -/
def initEngine (requested : Option Nat) (hardwareConcurrency : Nat) : EngineState :=
  ⟨[], [], [], effectiveMaxWorkers requested hardwareConcurrency, 0, [], 0, 0, 0⟩

/-- Shift the first queued task onto the worker with the given id
(processQueue after a worker has been found or created). -/
def assignNext (s : EngineState) (wid : Nat) : EngineState :=
  match s.queue with
  | [] => s
  | t :: rest =>
    { s with
      queue := rest,
      workers := s.workers.map (fun x =>
        if x.wid = wid then { x with busy := true, currentTask := some t.id, procRunning := true }
        else x),
      assigned := s.assigned + 1 }

/-- processQueue: nothing to do on an empty queue; otherwise use the first
idle worker, or create one when below the maximum, and assign the first
queued task to it. -/
def processQueue (s : EngineState) : EngineState :=
  if s.queue.isEmpty then s
  else
    match s.workers.find? (fun w => !w.busy) with
    | some w => assignNext s w.wid
    | none =>
      if s.currentWorkers < s.maxWorkers then
        assignNext
          { s with
            workers := s.workers ++ [⟨s.currentWorkers, false, none, false⟩],
            currentWorkers := s.currentWorkers + 1 }
          s.currentWorkers
      else s

/-- finishTask: release the worker and process the next queued task. -/
def finishTask (s : EngineState) (wid : Nat) : EngineState :=
  processQueue
    { s with
      workers := s.workers.map (fun x =>
        if x.wid = wid then { x with busy := false, currentTask := none } else x) }

/-- updateTaskCompletion: terminal update on completion (errors caught). -/
def updateTaskCompletion (st : Store) (id : JSString) (exitCode : Int) : Store :=
  updateOutput st id
    { noUpdate with status := some .completed, exitCode := some (some exitCode) }

/-- updateTaskError: terminal update on a worker error; note that stderr
is set to the error message, replacing previous content. -/
def updateTaskError (st : Store) (id : JSString) (msg : JSString) : Store :=
  updateOutput st id
    { noUpdate with status := some .failed, stderr := some msg, exitCode := some (some (-1 : Int)) }

/-- The pool's per-task message handler: messages whose id does not match
a worker's current task are ignored (the listener was removed by cleanup),
data goes to updateStreamOutput, complete and error perform the terminal
record update and release the worker. -/
def handleMsg (s : EngineState) (m : InboxMsg) : EngineState :=
  match s.workers.find? (fun w => decide (w.currentTask = some m.id)) with
  | none => s
  | some w =>
    match m.msg with
    | .started => s
    | .data d =>
      { s with store := updateStreamOutput s.store m.id d.stream (.str d.content) d.isEncoded }
    | .complete code =>
      finishTask { s with store := updateTaskCompletion s.store m.id code } w.wid
    | .error msg =>
      finishTask { s with store := updateTaskError s.store m.id msg } w.wid

/-- CommandWorkerPool.cancelCommand: remove the task from the queue if it
is still queued, else forward a cancel message to the worker running it
(fire and forget), else report false. -/
def poolCancelCommand (s : EngineState) (id : JSString) : Bool × EngineState :=
  if s.queue.any (fun t => decide (t.id = id)) then
    (true,
      { s with
        queue := s.queue.eraseP (fun t => decide (t.id = id)),
        cancelledFromQueue := s.cancelledFromQueue + 1 })
  else
    match s.workers.find? (fun w => decide (w.currentTask = some id)) with
    | some _ => (true, s)
    | none => (false, s)

/-- Message the command layer writes on cancellation. -/
def cancelledByUserMsg : JSString := strCodes "Command cancelled by user"

/-- Message the worker posts when it cancels a running process. -/
def workerCancelledMsg : JSString := strCodes "Command cancelled"

/-- The operations of the engine. The post operations are the worker
thread's sends; they are enabled while the worker holds the task. -/
inductive EngineOp
  | submit (id : JSString) (cwd : JSString)
  | cancel (id : JSString)
  | postData (wid : Nat) (stream : Channel) (content : JSString) (isEncoded : Bool)
  | postComplete (wid : Nat) (exitCode : Int)
  | postError (wid : Nat) (msg : JSString)
  | deliver
  | crash (wid : Nat)
  deriving Repr, DecidableEq

/-- Append a message from worker wid to the inbox, clearing procRunning
when the worker's send ends its process (completion, spawn error or
cancellation all delete the runningProcesses entry). -/
def postFromWorker (s : EngineState) (wid : Nat) (m : WorkerMsg) (endsProc : Bool) : EngineState :=
  match s.workers.find? (fun w => decide (w.wid = wid)) with
  | none => s
  | some w =>
    match w.currentTask with
    | none => s
    | some tid =>
      { s with
        inbox := s.inbox ++ [⟨tid, m⟩],
        workers :=
          if endsProc then
            s.workers.map (fun x => if x.wid = wid then { x with procRunning := false } else x)
          else s.workers }

/-- One engine step. submit is runCommand of src/command.ts (the record is
inserted before the pool sees the task; a duplicate id makes the insert
throw, so nothing happens). cancel is cancelCommand of src/command.ts
(pool cancel, then a failed record write when the pool reported true).
crash is the worker error handler: the worker is removed from the pool and
the queue is processed again. -/
def engineStep (s : EngineState) (op : EngineOp) : EngineState :=
  match op with
  | .submit id cwd =>
    if (getOutputById s.store id).isSome then s
    else
      processQueue
        { s with
          store := insertInitialOutput s.store id cwd,
          queue := s.queue ++ [⟨id⟩],
          submitted := s.submitted + 1 }
  | .cancel id =>
    let r := poolCancelCommand s id
    if r.1 then
      { r.2 with
        store := updateOutput r.2.store id
          { noUpdate with
            status := some .failed,
            exitCode := some (some (-1 : Int)),
            stderr := some cancelledByUserMsg } }
    else r.2
  | .postData wid stream content isEncoded =>
    postFromWorker s wid (.data ⟨stream, content, isEncoded⟩) false
  | .postComplete wid code => postFromWorker s wid (.complete code) true
  | .postError wid msg => postFromWorker s wid (.error msg) true
  | .deliver =>
    match s.inbox with
    | [] => s
    | m :: rest => handleMsg { s with inbox := rest } m
  | .crash wid =>
    processQueue { s with workers := s.workers.filter (fun w => !decide (w.wid = wid)) }

/-- Run a list of engine operations from a state. -/
def engineRun (s : EngineState) (ops : List EngineOp) : EngineState :=
  ops.foldl engineStep s

/-! ### Store lemmas -/

theorem list_map_eq_self {α : Type} (l : List α) (f : α → α)
    (h : ∀ x ∈ l, f x = x) : l.map f = l := by
  induction l with
  | nil => rfl
  | cons a t ih =>
    simp only [List.map_cons, h a (by simp)]
    rw [ih (fun x hx => h x (by simp [hx]))]

theorem find?_map_update (st : Store) (id id2 : JSString) (u : UpdateOutputParams) :
    (updateOutput st id u).find? (fun e => decide (e.1 = id2)) =
      (st.find? (fun e => decide (e.1 = id2))).map
        (fun e => if e.1 = id then (e.1, applyUpdate e.2 u) else e) := by
  have hkey : ∀ e : JSString × OutputRecord,
      (if e.1 = id then (e.1, applyUpdate e.2 u) else e).1 = e.1 := by
    intro e; by_cases h : e.1 = id <;> simp [h]
  unfold updateOutput
  rw [List.find?_map]
  have hp : ((fun e => decide (e.1 = id2)) ∘
      fun e : JSString × OutputRecord =>
        if e.1 = id then (e.1, applyUpdate e.2 u) else e) =
      (fun e : JSString × OutputRecord => decide (e.1 = id2)) := by
    funext e
    simp [Function.comp, hkey e]
  rw [hp]

theorem getOutputById_updateOutput_self (st : Store) (id : JSString)
    (u : UpdateOutputParams) :
    getOutputById (updateOutput st id u) id =
      (getOutputById st id).map (fun r => applyUpdate r u) := by
  unfold getOutputById getOutputByIdE
  by_cases hv : isOutputId id
  · simp only [hv, Bool.true_eq_false, if_false, find?_map_update]
    cases hf : st.find? (fun e => decide (e.1 = id)) with
    | none => simp
    | some e =>
      have he : e.1 = id := by
        have := List.find?_some hf
        simpa using this
      simp [he]
  · simp [Bool.not_eq_true] at hv
    simp [hv]

theorem getOutputById_updateOutput_ne (st : Store) (id id2 : JSString)
    (u : UpdateOutputParams) (h : id2 ≠ id) :
    getOutputById (updateOutput st id u) id2 = getOutputById st id2 := by
  unfold getOutputById getOutputByIdE
  by_cases hv : isOutputId id2
  · simp only [hv, Bool.true_eq_false, if_false, find?_map_update]
    cases hf : st.find? (fun e => decide (e.1 = id2)) with
    | none => simp
    | some e =>
      have he : e.1 = id2 := by
        have := List.find?_some hf
        simpa using this
      have : ¬(e.1 = id) := by rw [he]; exact h
      simp [this]
  · simp [Bool.not_eq_true] at hv
    simp [hv]

theorem getOutputById_insert_ne (st : Store) (id id2 cwd : JSString) (h : id2 ≠ id) :
    getOutputById (insertInitialOutput st id cwd) id2 = getOutputById st id2 := by
  unfold getOutputById getOutputByIdE insertInitialOutput
  by_cases hv : isOutputId id2
  · have : ¬(id = id2) := fun he => h he.symm
    simp [hv, List.find?_cons, this]
  · simp [Bool.not_eq_true] at hv
    simp [hv]

theorem getOutputById_insert_self (st : Store) (id cwd : JSString)
    (hv : isOutputId id = true) :
    getOutputById (insertInitialOutput st id cwd) id =
      some ⟨[], false, [], false, .running, none, cwd⟩ := by
  unfold getOutputById getOutputByIdE insertInitialOutput
  simp [hv, List.find?_cons]

/-- A status-preserving view of updateStreamOutput: whatever it does, it
only issues updates with no status field. -/
theorem getOutputById_updateStreamOutput_status (st : Store) (id id2 : JSString)
    (ch : Channel) (c : StreamContent) (b : Bool) :
    (getOutputById (updateStreamOutput st id ch c b) id2).map OutputRecord.status =
      (getOutputById st id2).map OutputRecord.status := by
  unfold updateStreamOutput
  cases hl : getOutputById st id with
  | none => rfl
  | some cur =>
    by_cases h2 : id2 = id
    · subst h2
      cases ch <;>
        simp [getOutputById_updateOutput_self, hl, applyUpdate, noUpdate]
    · cases ch <;> simp [getOutputById_updateOutput_ne _ _ _ _ h2]

/-! ### Engine lemmas -/

theorem assignNext_store (s : EngineState) (wid : Nat) :
    (assignNext s wid).store = s.store := by
  unfold assignNext
  cases s.queue <;> rfl

theorem processQueue_store (s : EngineState) :
    (processQueue s).store = s.store := by
  unfold processQueue
  by_cases hq : s.queue.isEmpty
  · simp [hq]
  · simp only [hq, if_false]
    cases s.workers.find? (fun w => !w.busy) with
    | some w => simp [assignNext_store]
    | none =>
      by_cases hc : s.currentWorkers < s.maxWorkers <;>
        simp [hc, assignNext_store]

theorem finishTask_store (s : EngineState) (wid : Nat) :
    (finishTask s wid).store = s.store := by
  unfold finishTask
  rw [processQueue_store]

theorem postFromWorker_store (s : EngineState) (wid : Nat) (m : WorkerMsg) (e : Bool) :
    (postFromWorker s wid m e).store = s.store := by
  unfold postFromWorker
  split
  · rfl
  · split
    · rfl
    · rfl

theorem assignNext_queue_length (s : EngineState) (wid : Nat) (h : s.queue ≠ []) :
    (assignNext s wid).queue.length + 1 = s.queue.length := by
  unfold assignNext
  cases hq : s.queue with
  | nil => exact absurd hq h
  | cons t rest => simp

/-- When the queue is nonempty and some worker is idle, processQueue
assigns a task: the queue shrinks by one. -/
theorem processQueue_pulls (s : EngineState) (h : s.queue ≠ [])
    (hidle : ∃ w ∈ s.workers, w.busy = false) :
    (processQueue s).queue.length + 1 = s.queue.length := by
  unfold processQueue
  have hq : s.queue.isEmpty = false := by
    cases hqq : s.queue with
    | nil => exact absurd hqq h
    | cons t rest => rfl
  rw [hq]
  simp only [Bool.false_eq_true, if_false]
  cases hf : s.workers.find? (fun w => !w.busy) with
  | none =>
    obtain ⟨w, hw, hbusy⟩ := hidle
    have := List.find?_eq_none.mp hf w hw
    simp [hbusy] at this
  | some w => simp [assignNext_queue_length s w.wid h]

/-- Where the current task of a worker after processQueue can come from:
an untouched worker, a freshly created idle worker, or the head of the
queue just assigned. -/
theorem processQueue_currentTask_cases (s : EngineState) (w2 : WorkerInstance)
    (h : w2 ∈ (processQueue s).workers) :
    (∃ w0 ∈ s.workers, w2.currentTask = w0.currentTask) ∨
      w2.currentTask = none ∨
      (∃ t ∈ s.queue, w2.currentTask = some t.id) := by
  unfold processQueue at h
  by_cases hq : s.queue.isEmpty
  · rw [hq] at h
    simp only [if_true] at h
    exact .inl ⟨w2, h, rfl⟩
  · simp only [hq, Bool.false_eq_true, if_false] at h
    cases hf : s.workers.find? (fun w => !w.busy) with
    | some w =>
      rw [hf] at h
      unfold assignNext at h
      cases hqq : s.queue with
      | nil => rw [hqq] at h; exact .inl ⟨w2, h, rfl⟩
      | cons t rest =>
        rw [hqq] at h
        simp only [List.mem_map] at h
        obtain ⟨w0, hw0, heq⟩ := h
        by_cases hwid : w0.wid = w.wid
        · right; right
          refine ⟨t, by simp [hqq], ?_⟩
          rw [← heq]
          simp [hwid]
        · left
          refine ⟨w0, hw0, ?_⟩
          rw [← heq]
          simp [hwid]
    | none =>
      rw [hf] at h
      by_cases hc : s.currentWorkers < s.maxWorkers
      · simp only [hc, if_true] at h
        unfold assignNext at h
        cases hqq : s.queue with
        | nil =>
          simp only [hqq] at h
          simp at h
          rcases h with h | h
          · exact .inl ⟨w2, h, rfl⟩
          · right; left; rw [h]
        | cons t rest =>
          simp only [hqq] at h
          simp only [List.mem_map, List.mem_append, List.mem_singleton] at h
          obtain ⟨w0, hw0, heq⟩ := h
          by_cases hwid : w0.wid = s.currentWorkers
          · right; right
            refine ⟨t, by simp [hqq], ?_⟩
            rw [← heq]
            simp [hwid]
          · rcases hw0 with hw0 | hw0
            · left
              refine ⟨w0, hw0, ?_⟩
              rw [← heq]
              simp [hwid]
            · right; left
              rw [← heq]
              rw [hw0] at hwid ⊢
              simp at hwid
      · simp only [hc, if_false] at h
        exact .inl ⟨w2, h, rfl⟩

/-! ### Concrete constants for counterexamples and witnesses -/

/-- A valid nine-digit output id. -/
def idA : JSString := strCodes "000000001"

/-- A second valid nine-digit output id. -/
def idB : JSString := strCodes "000000002"

/-! ### Claim C1 -/

/-- Store holding only the freshly inserted record for idA. -/
def c1Store : Store := insertInitialOutput [] idA []

set_option maxRecDepth 4096 in
/-- C1. The engine does not round-trip binary output. The process writes
the single stdout chunk 0x00 0x61; the worker classifies it binary and
posts the base64 text AGE= with isEncoded true; updateStreamOutput then
UTF-8-encodes that base64 text instead of decoding it, so the stored
channel is QUdFPQ== with isEncoded true, and base64-decoding the stored
content yields the bytes of the text AGE=, not the raw bytes 0x00 0x61
that the claim requires. -/
theorem binary_chunk_double_encoded :
    getOutputById (runStreamPipeline c1Store idA .stdout [[0, 97]]) idA =
      some ⟨strCodes "QUdFPQ==", true, [], false, .running, none, []⟩ ∧
    decodeBase64 (strCodes "QUdFPQ==") = strCodes "AGE=" ∧
    strCodes "AGE=" ≠ [0, 97] := by decide

/-! ### Claim C2 -/

/-- A 1030-byte chunk whose first 1024 bytes hold 103 control characters:
more than ten percent of the first 1024 bytes, but not more than ten
percent of the whole chunk. -/
def c2Chunk : Bytes := List.replicate 103 1 ++ List.replicate 927 97

set_option maxRecDepth 40000 in
/-- C2 counterexample. The classifier leaves c2Chunk non-binary although
the spec formula (percentage over the first 1024 bytes) marks it
binary: the source divides by the whole chunk length. -/
theorem classifier_denominator_counterexample :
    isBinaryData c2Chunk = false ∧ isBinaryDataSpec c2Chunk = true := by decide

/-- C2 amended. The classifier marks a chunk binary exactly when a NUL
byte occurs in the first 1024 bytes, or the control characters counted
among the first 1024 bytes exceed ten percent of the total chunk
length. -/
theorem isBinaryData_characterization (d : Bytes) :
    isBinaryData d = true ↔
      ((∃ b ∈ d.take 1024, b = 0) ∨ 10 * controlCharCount d > d.length) := by
  unfold isBinaryData
  by_cases h0 : d.length = 0
  · have hd : d = [] := List.length_eq_zero.mp h0
    subst hd
    simp [controlCharCount]
  · simp only [h0, if_false]
    have hany : (d.take 1024).any (fun b => b == 0) = true ↔ ∃ b ∈ d.take 1024, b = 0 := by
      simp [List.any_eq_true]
    by_cases hn : (d.take 1024).any (fun b => b == 0)
    · simp only [hn, if_true, true_iff]
      exact .inl (hany.mp hn)
    · simp only [hn, Bool.false_eq_true, if_false, decide_eq_true_eq]
      constructor
      · exact fun h => .inr h
      · rintro (he | h)
        · exact absurd (hany.mpr he) (by simp [hn])
        · exact h

/-! ### Claim C6 -/

/-- C6. Submitting a fresh command inserts the record synchronously before
the pool sees the task: immediately after submit the record reads status
running, empty stdout and stderr, and a null exit code. -/
theorem submit_creates_running_record (s : EngineState) (id cwd : JSString)
    (hv : isOutputId id = true) (habs : getOutputById s.store id = none) :
    getOutputById (engineStep s (.submit id cwd)).store id =
      some ⟨[], false, [], false, .running, none, cwd⟩ := by
  simp only [engineStep]
  rw [habs]
  simp only [Option.isSome_none, Bool.false_eq_true, if_false]
  rw [processQueue_store]
  exact getOutputById_insert_self _ _ _ hv

/-- C6 witness: submitting idA to a fresh engine. -/
theorem submit_creates_running_record_witness :
    getOutputById (engineStep (initEngine (some 1) 4) (.submit idA [])).store idA =
      some ⟨[], false, [], false, .running, none, []⟩ :=
  submit_creates_running_record (initEngine (some 1) 4) idA [] (by decide) (by decide)

/-! ### Claim C5 -/

theorem isOutputId_not_empty (id : JSString) (h : isOutputId id = true) :
    id.isEmpty = false := by
  cases id with
  | nil => simp [isOutputId] at h
  | cons a t => rfl

/-- Store with a completed record for idA whose stdout is the plain text
hello. -/
def c5Store : Store := [(idA, ⟨strCodes "hello", false, [], false, .completed, some 0, []⟩)]

/-- C5 counterexample. A supplied empty direct stdin together with a
reference id does not fail with the conflicting-inputs error: the empty
string is falsy, so the handler silently resolves the reference. -/
theorem empty_stdin_with_reference_not_conflict :
    resolveStdinContent c5Store (some []) (some idA) =
      .resolved (some (strCodes "hello")) ∧
    resolveStdinContent c5Store (some []) (some idA) ≠ .conflictError := by decide

/-- C5 amended. Stdin resolution fails with the conflicting-inputs error
exactly when the supplied direct stdin is non-empty and a reference id is
also supplied; with no truthy direct stdin, a reference to an absent
record fails with the not-found error, and a reference to a present
record resolves to its stdout, base64-decoded when stdoutIsEncoded and
verbatim otherwise. -/
theorem resolveStdin_resolution_rules (st : Store) :
    (∀ s ref, s ≠ [] → ref ≠ [] →
       resolveStdinContent st (some s) (some ref) = .conflictError) ∧
    (∀ stdin ref, truthyStr stdin = false → isOutputId ref = true →
       getOutputById st ref = none →
       resolveStdinContent st stdin (some ref) = .notFoundError) ∧
    (∀ stdin ref r, truthyStr stdin = false → isOutputId ref = true →
       getOutputById st ref = some r →
       resolveStdinContent st stdin (some ref) =
         .resolved (some (if r.stdoutIsEncoded then
           utf8DecodeLossy (decodeBase64 r.stdout) else r.stdout))) := by
  refine ⟨?_, ?_, ?_⟩
  · intro s ref hs href
    have hts : truthyStr (some s) = true := by
      cases s with
      | nil => exact absurd rfl hs
      | cons a t => rfl
    have htr : truthyStr (some ref) = true := by
      cases ref with
      | nil => exact absurd rfl href
      | cons a t => rfl
    simp [resolveStdinContent, hts, htr]
  · intro stdin ref hts hid habs
    have htr : truthyStr (some ref) = true := by
      simp [truthyStr, isOutputId_not_empty ref hid]
    simp [resolveStdinContent, hts, htr, hid, habs]
  · intro stdin ref r hts hid hsome
    have htr : truthyStr (some ref) = true := by
      simp [truthyStr, isOutputId_not_empty ref hid]
    simp only [resolveStdinContent, hts, htr, hid, hsome]
    by_cases he : r.stdoutIsEncoded = true <;> simp [he]

/-- C5 witness: the three resolution rules at concrete inputs over
c5Store. -/
theorem resolveStdin_resolution_rules_witness :
    resolveStdinContent c5Store (some (strCodes "hi")) (some idA) = .conflictError ∧
    resolveStdinContent c5Store none (some idB) = .notFoundError ∧
    resolveStdinContent c5Store none (some idA) = .resolved (some (strCodes "hello")) := by
  refine ⟨?_, ?_, ?_⟩
  · exact (resolveStdin_resolution_rules c5Store).1 (strCodes "hi") idA
      (by decide) (by decide)
  · exact (resolveStdin_resolution_rules c5Store).2.1 none idB rfl (by decide) (by decide)
  · have h := (resolveStdin_resolution_rules c5Store).2.2 none idA
      ⟨strCodes "hello", false, [], false, .completed, some 0, []⟩
      rfl (by decide) (by decide)
    simpa using h

/-! ### Claim C10 -/

/-- C10. The status queries never raise: for every database outcome and
every id, getCommandStatus answers a status or not-found, with not-found
on a malformed id, a store failure or an absent record, and the record's
status otherwise; getCommandProgress likewise answers the progress object
or null. -/
theorem status_queries_never_raise (dbError : Option JSString) (st : Store) (id : JSString) :
    (getCommandStatus dbError st id = .notFound ∨
      ∃ c, getCommandStatus dbError st id = .found c) ∧
    (isOutputId id = false →
      getCommandStatus dbError st id = .notFound ∧ getCommandProgress dbError st id = none) ∧
    (∀ m, dbError = some m →
      getCommandStatus dbError st id = .notFound ∧ getCommandProgress dbError st id = none) ∧
    (getOutputById st id = none →
      getCommandStatus none st id = .notFound ∧ getCommandProgress none st id = none) ∧
    (∀ r, getOutputById st id = some r →
      getCommandStatus none st id = .found r.status ∧
      getCommandProgress none st id = some ⟨r.status, r.exitCode,
        decide (0 < r.stdout.length) || decide (0 < r.stderr.length),
        r.stdout, r.stderr, r.stdoutIsEncoded, r.stderrIsEncoded⟩) := by
  refine ⟨?_, ?_, ?_, ?_, ?_⟩
  · unfold getCommandStatus
    cases getOutputByIdE dbError st id with
    | error e => exact .inl rfl
    | ok o =>
      cases o with
      | none => exact .inl rfl
      | some r => exact .inr ⟨r.status, rfl⟩
  · intro hv
    unfold getCommandStatus getCommandProgress getOutputByIdE
    rw [hv]
    exact ⟨rfl, rfl⟩
  · intro m hm
    subst hm
    unfold getCommandStatus getCommandProgress getOutputByIdE
    by_cases hv : isOutputId id
    · simp [hv]
    · simp [Bool.not_eq_true] at hv
      simp [hv]
  · intro habs
    unfold getCommandStatus getCommandProgress
    unfold getOutputById at habs
    cases he : getOutputByIdE none st id with
    | error e => exact ⟨rfl, rfl⟩
    | ok o =>
      rw [he] at habs
      subst habs
      exact ⟨rfl, rfl⟩
  · intro r hr
    unfold getCommandStatus getCommandProgress
    unfold getOutputById at hr
    cases he : getOutputByIdE none st id with
    | error e => rw [he] at hr; exact absurd hr (by simp)
    | ok o =>
      rw [he] at hr
      subst hr
      exact ⟨rfl, rfl⟩

/-- C10 witness: the query rules at concrete inputs. -/
theorem status_queries_never_raise_witness :
    getCommandStatus (some (strCodes "db down")) c5Store idA = .notFound ∧
    getCommandProgress none c5Store idB = none ∧
    getCommandStatus none c5Store idA = .found .completed := by
  refine ⟨?_, ?_, ?_⟩
  · exact ((status_queries_never_raise (some (strCodes "db down")) c5Store idA).2.2.1
      (strCodes "db down") rfl).1
  · exact ((status_queries_never_raise none c5Store idB).2.2.2.1 (by decide)).2
  · have h := (status_queries_never_raise none c5Store idA).2.2.2.2
      ⟨strCodes "hello", false, [], false, .completed, some 0, []⟩ (by decide)
    exact h.1

/-! ### Claim C9 -/

theorem find?_entry_key (st : Store) (id : JSString) (a : JSString × OutputRecord)
    (h : st.find? (fun e => decide (e.1 = id)) = some a) : a.1 = id := by
  have := List.find?_some h
  simpa using this

/-- With distinct keys, the entry found for an id is the only entry with
that key. -/
theorem lookup_entry_unique (st : Store) (id : JSString) (a : JSString × OutputRecord)
    (hnodup : (st.map Prod.fst).Nodup)
    (h : st.find? (fun e => decide (e.1 = id)) = some a) :
    ∀ e ∈ st, e.1 = id → e = a := by
  induction st with
  | nil => intro e he; exact absurd he (by simp)
  | cons hd t ih =>
    have hnodup2 : (hd.1 :: t.map Prod.fst).Nodup := by simpa using hnodup
    have hnd := List.nodup_cons.mp hnodup2
    intro e he hkey
    by_cases hh : hd.1 = id
    · have ha : a = hd := by
        rw [List.find?_cons] at h
        simp [hh] at h
        exact h.symm
      rcases List.mem_cons.mp he with he1 | he2
      · rw [he1, ha]
      · exfalso
        apply hnd.1
        rw [hh, ← hkey]
        exact List.mem_map.mpr ⟨e, he2, rfl⟩
    · rw [List.find?_cons] at h
      simp [hh] at h
      rcases List.mem_cons.mp he with he1 | he2
      · exact absurd (he1 ▸ hkey) hh
      · exact ih hnd.2 h e he2 hkey

/-- An update whose fields reproduce the stored record is the identity on
a store with distinct keys. -/
theorem updateOutput_identity (st : Store) (id : JSString) (u : UpdateOutputParams)
    (a : JSString × OutputRecord)
    (hnodup : (st.map Prod.fst).Nodup)
    (hfind : st.find? (fun e => decide (e.1 = id)) = some a)
    (hfix : applyUpdate a.2 u = a.2) :
    updateOutput st id u = st := by
  unfold updateOutput
  apply list_map_eq_self
  intro e he
  by_cases hkey : e.1 = id
  · have hea : e = a := lookup_entry_unique st id a hnodup hfind e he hkey
    rw [if_pos hkey, hea, hfix]
  · rw [if_neg hkey]

/-- A successful lookup comes from the entry with that id. -/
theorem getOutputById_find? (st : Store) (id : JSString) (r : OutputRecord)
    (h : getOutputById st id = some r) :
    st.find? (fun e => decide (e.1 = id)) = some (id, r) := by
  unfold getOutputById getOutputByIdE at h
  by_cases hv : isOutputId id
  · simp only [hv, Bool.true_eq_false, if_false] at h
    cases hf : st.find? (fun e => decide (e.1 = id)) with
    | none => rw [hf] at h; exact absurd h (by simp)
    | some e =>
      rw [hf] at h
      have h2 : e.2 = r := by simpa using h
      have h1 : e.1 = id := find?_entry_key st id e hf
      rw [← h1, ← h2]
  · simp [Bool.not_eq_true] at hv
    rw [hv] at h
    exact absurd h (by simp)

/-- C9. Appending an empty chunk is the identity: the classifier labels
the empty chunk non-binary, and merging the resulting empty string with
isBinary false leaves the record store unchanged, over every store with
distinct ids whose encoded channels hold canonical base64 text. -/
theorem updateStreamOutput_empty_chunk (st : Store) (id : JSString) (ch : Channel)
    (hnodup : (st.map Prod.fst).Nodup)
    (hwf : ∀ r, getOutputById st id = some r →
      (r.stdoutIsEncoded = true → ∃ bs, ValidBytes bs ∧ r.stdout = encodeBase64 bs) ∧
      (r.stderrIsEncoded = true → ∃ bs, ValidBytes bs ∧ r.stderr = encodeBase64 bs)) :
    isBinaryData [] = false ∧
    updateStreamOutput st id ch (.str []) false = st := by
  refine ⟨rfl, ?_⟩
  unfold updateStreamOutput
  cases hl : getOutputById st id with
  | none => rfl
  | some cur =>
    have hfind := getOutputById_find? st id cur hl
    cases ch with
    | stdout =>
      cases hflag : cur.stdoutIsEncoded with
      | false =>
        simp only [hflag, Bool.or_false, utf8Encode, List.map_nil, List.flatten_nil,
          List.append_nil]
        exact updateOutput_identity st id _ (id, cur) hnodup hfind
          (by simp only [applyUpdate, noUpdate]; simp; rw [← hflag])
      | true =>
        obtain ⟨bs, hbs, henc⟩ := (hwf cur hl).1 hflag
        have hdec : decodeBase64 cur.stdout = bs := by
          rw [henc]; exact decodeBase64_encodeBase64 bs hbs
        simp only [hflag, Bool.or_true, if_true, hdec, utf8Encode, List.map_nil,
          List.flatten_nil, List.append_nil]
        exact updateOutput_identity st id _ (id, cur) hnodup hfind
          (by simp only [applyUpdate, noUpdate]; simp; rw [← henc, ← hflag])
    | stderr =>
      cases hflag : cur.stderrIsEncoded with
      | false =>
        simp only [hflag, Bool.or_false, utf8Encode, List.map_nil, List.flatten_nil,
          List.append_nil]
        exact updateOutput_identity st id _ (id, cur) hnodup hfind
          (by simp only [applyUpdate, noUpdate]; simp; rw [← hflag])
      | true =>
        obtain ⟨bs, hbs, henc⟩ := (hwf cur hl).2 hflag
        have hdec : decodeBase64 cur.stderr = bs := by
          rw [henc]; exact decodeBase64_encodeBase64 bs hbs
        simp only [hflag, Bool.or_true, if_true, hdec, utf8Encode, List.map_nil,
          List.flatten_nil, List.append_nil]
        exact updateOutput_identity st id _ (id, cur) hnodup hfind
          (by simp only [applyUpdate, noUpdate]; simp; rw [← henc, ← hflag])

/-- Store with an encoded stdout channel holding the base64 text of the
single byte 0. -/
def c9Store : Store := [(idA, ⟨strCodes "AA==", true, [], false, .running, none, []⟩)]

/-- C9 witness: the empty chunk is non-binary and merging it into a store
with an encoded channel changes nothing. -/
theorem updateStreamOutput_empty_chunk_witness :
    isBinaryData [] = false ∧
    updateStreamOutput c9Store idA .stdout (.str []) false = c9Store := by
  refine updateStreamOutput_empty_chunk c9Store idA .stdout (by decide) ?_
  intro r hr
  have hrec : getOutputById c9Store idA =
      some ⟨strCodes "AA==", true, [], false, .running, none, []⟩ := by decide
  rw [hrec] at hr
  have hr2 := Option.some.inj hr
  subst hr2
  constructor
  · intro _
    exact ⟨[0], by intro x hx; simp at hx; omega, by decide⟩
  · intro hfalse
    exact absurd hfalse (by decide)

/-! ### Claim C8 -/

/-- C8 amended. Pool-level cancel: a still-queued task is removed from the
queue (workers and store untouched) and cancel reports true; when a worker
is currently running the id, the cancel is forwarded by a fire-and-forget
message and cancel reports true regardless of whether a process was still
running on the worker; otherwise cancel reports false and the whole pool
state is unchanged. -/
theorem poolCancelCommand_rules (s : EngineState) (id : JSString) :
    (s.queue.any (fun t => decide (t.id = id)) = true →
      (poolCancelCommand s id).1 = true ∧
      (poolCancelCommand s id).2.queue = s.queue.eraseP (fun t => decide (t.id = id)) ∧
      (poolCancelCommand s id).2.workers = s.workers ∧
      (poolCancelCommand s id).2.store = s.store) ∧
    (s.queue.any (fun t => decide (t.id = id)) = false →
      (∃ w ∈ s.workers, w.currentTask = some id) →
      poolCancelCommand s id = (true, s)) ∧
    (s.queue.any (fun t => decide (t.id = id)) = false →
      (∀ w ∈ s.workers, w.currentTask ≠ some id) →
      poolCancelCommand s id = (false, s)) := by
  refine ⟨?_, ?_, ?_⟩
  · intro hq
    unfold poolCancelCommand
    rw [hq]
    exact ⟨rfl, rfl, rfl, rfl⟩
  · intro hq hex
    unfold poolCancelCommand
    rw [hq]
    simp only [Bool.false_eq_true, if_false]
    cases hf : s.workers.find? (fun w => decide (w.currentTask = some id)) with
    | none =>
      obtain ⟨w, hw, hcur⟩ := hex
      have := List.find?_eq_none.mp hf w hw
      simp [hcur] at this
    | some w => rfl
  · intro hq hall
    unfold poolCancelCommand
    rw [hq]
    simp only [Bool.false_eq_true, if_false]
    have hf : s.workers.find? (fun w => decide (w.currentTask = some id)) = none := by
      rw [List.find?_eq_none]
      intro w hw
      simp [hall w hw]
    rw [hf]

/-- State after submitting idA to a one-worker pool and the worker posting
completion that the pool has not yet processed. -/
def c8State : EngineState :=
  engineRun (initEngine (some 1) 4) [.submit idA [], .postComplete 0 0]

/-- C8 counterexample. The worker running idA has already finished its
process (its runningProcesses entry is gone, so its own cancel result
would be false), yet pool-level cancel still returns true after
forwarding. -/
theorem forwarded_cancel_reports_true_without_process :
    (poolCancelCommand c8State idA).1 = true ∧
    c8State.workers.any (fun w => decide (w.currentTask = some idA)) = true ∧
    c8State.workers.all (fun w => !w.procRunning) = true := by decide

/-- C8 witness: the three cancel rules at concrete states. -/
theorem poolCancelCommand_rules_witness :
    (poolCancelCommand (engineRun (initEngine (some 1) 4) [.submit idA [], .submit idB []]) idB).1 = true ∧
    poolCancelCommand c8State idA = (true, c8State) ∧
    poolCancelCommand (initEngine (some 1) 4) idA = (false, initEngine (some 1) 4) := by
  refine ⟨?_, ?_, ?_⟩
  · exact ((poolCancelCommand_rules
      (engineRun (initEngine (some 1) 4) [.submit idA [], .submit idB []]) idB).1 (by decide)).1
  · exact (poolCancelCommand_rules c8State idA).2.1 (by decide)
      ⟨⟨0, true, some idA, false⟩, by decide, rfl⟩
  · exact (poolCancelCommand_rules (initEngine (some 1) 4) idA).2.2 (by decide)
      (fun w hw => by simp [initEngine] at hw)

/-! ### Claim C7 -/

/-- The pool bookkeeping invariant: the live workers never exceed the
created count, the created count never exceeds the maximum, and the ghost
accounting submitted = queued + assigned + cancelled-from-queue holds. -/
def EngineAccounting (s : EngineState) : Prop :=
  s.workers.length ≤ s.currentWorkers ∧
  s.currentWorkers ≤ s.maxWorkers ∧
  s.submitted = s.queue.length + s.assigned + s.cancelledFromQueue

theorem length_eraseP_of_any {α : Type} (l : List α) (p : α → Bool)
    (h : l.any p = true) : (l.eraseP p).length + 1 = l.length := by
  induction l with
  | nil => simp at h
  | cons a t ih =>
    by_cases ha : p a
    · simp [List.eraseP_cons, ha]
    · have ht : t.any p = true := by
        rcases List.any_eq_true.mp h with ⟨x, hx, hpx⟩
        rcases List.mem_cons.mp hx with h1 | h2
        · exact absurd (h1 ▸ hpx) (by simpa using ha)
        · exact List.any_eq_true.mpr ⟨x, h2, hpx⟩
      simp [List.eraseP_cons, ha, ih ht]

theorem assignNext_accounting (s : EngineState) (wid : Nat)
    (h : EngineAccounting s) : EngineAccounting (assignNext s wid) := by
  unfold assignNext
  cases hq : s.queue with
  | nil => exact h
  | cons t rest =>
    obtain ⟨h1, h2, h3⟩ := h
    refine ⟨by simpa using h1, h2, ?_⟩
    rw [hq] at h3
    simp at h3 ⊢
    omega

theorem processQueue_accounting (s : EngineState)
    (h : EngineAccounting s) : EngineAccounting (processQueue s) := by
  obtain ⟨h1, h2, h3⟩ := h
  unfold processQueue
  by_cases hq : s.queue.isEmpty
  · simp only [hq, if_true]
    exact ⟨h1, h2, h3⟩
  · simp only [hq, Bool.false_eq_true, if_false]
    cases s.workers.find? (fun w => !w.busy) with
    | some w => exact assignNext_accounting s w.wid ⟨h1, h2, h3⟩
    | none =>
      by_cases hc : s.currentWorkers < s.maxWorkers
      · simp only [hc, if_true]
        apply assignNext_accounting
        refine ⟨?_, ?_, ?_⟩
        · simp
          omega
        · simp
          omega
        · simpa using h3
      · simp only [hc, if_false]
        exact ⟨h1, h2, h3⟩

theorem finishTask_accounting (s : EngineState) (wid : Nat)
    (h : EngineAccounting s) : EngineAccounting (finishTask s wid) := by
  unfold finishTask
  apply processQueue_accounting
  obtain ⟨h1, h2, h3⟩ := h
  exact ⟨by simpa using h1, h2, h3⟩

theorem handleMsg_accounting (s : EngineState) (m : InboxMsg)
    (h : EngineAccounting s) : EngineAccounting (handleMsg s m) := by
  obtain ⟨h1, h2, h3⟩ := h
  unfold handleMsg
  split
  · exact ⟨h1, h2, h3⟩
  · split
    · exact ⟨h1, h2, h3⟩
    · exact ⟨h1, h2, h3⟩
    · exact finishTask_accounting _ _ ⟨h1, h2, h3⟩
    · exact finishTask_accounting _ _ ⟨h1, h2, h3⟩

theorem postFromWorker_accounting (s : EngineState) (wid : Nat) (m : WorkerMsg) (e : Bool)
    (h : EngineAccounting s) : EngineAccounting (postFromWorker s wid m e) := by
  obtain ⟨h1, h2, h3⟩ := h
  unfold postFromWorker
  split
  · exact ⟨h1, h2, h3⟩
  · split
    · exact ⟨h1, h2, h3⟩
    · refine ⟨?_, h2, h3⟩
      cases e <;> simp [h1]

theorem engineStep_accounting (s : EngineState) (op : EngineOp)
    (h : EngineAccounting s) : EngineAccounting (engineStep s op) := by
  obtain ⟨h1, h2, h3⟩ := h
  cases op with
  | submit id cwd =>
    simp only [engineStep]
    by_cases hp : (getOutputById s.store id).isSome
    · simp only [hp, if_true]
      exact ⟨h1, h2, h3⟩
    · simp only [hp, Bool.false_eq_true, if_false]
      apply processQueue_accounting
      refine ⟨h1, h2, ?_⟩
      simp
      omega
  | cancel id =>
    simp only [engineStep]
    by_cases hq : s.queue.any (fun t => decide (t.id = id))
    · have hl := length_eraseP_of_any s.queue _ hq
      unfold poolCancelCommand
      simp only [hq, if_true]
      exact ⟨h1, h2, by simp; omega⟩
    · unfold poolCancelCommand
      simp only [hq, Bool.false_eq_true, if_false]
      cases s.workers.find? (fun w => decide (w.currentTask = some id)) with
      | some w => exact ⟨h1, h2, h3⟩
      | none => exact ⟨h1, h2, h3⟩
  | postData wid stream content isEncoded =>
    simp only [engineStep]
    exact postFromWorker_accounting s wid _ false ⟨h1, h2, h3⟩
  | postComplete wid code =>
    simp only [engineStep]
    exact postFromWorker_accounting s wid _ true ⟨h1, h2, h3⟩
  | postError wid msg =>
    simp only [engineStep]
    exact postFromWorker_accounting s wid _ true ⟨h1, h2, h3⟩
  | deliver =>
    simp only [engineStep]
    cases s.inbox with
    | nil => exact ⟨h1, h2, h3⟩
    | cons m rest => exact handleMsg_accounting _ m ⟨h1, h2, h3⟩
  | crash wid =>
    simp only [engineStep]
    apply processQueue_accounting
    refine ⟨?_, h2, h3⟩
    calc (s.workers.filter (fun w => !decide (w.wid = wid))).length
        ≤ s.workers.length := List.length_filter_le _ _
      _ ≤ s.currentWorkers := h1

theorem engineRun_accounting (s : EngineState) (ops : List EngineOp)
    (h : EngineAccounting s) : EngineAccounting (engineRun s ops) := by
  induction ops generalizing s with
  | nil => exact h
  | cons op rest ih => exact ih (engineStep s op) (engineStep_accounting s op h)

/-- C7 amended. From a freshly constructed pool, after any sequence of
engine operations, the live workers never exceed the configured maximum,
and the queued tasks equal the submitted tasks minus those assigned to a
worker minus those removed from the queue by cancellation. -/
theorem pool_bound_and_queue_accounting (requested : Option Nat)
    (hardwareConcurrency : Nat) (ops : List EngineOp) :
    (engineRun (initEngine requested hardwareConcurrency) ops).workers.length ≤
      (engineRun (initEngine requested hardwareConcurrency) ops).maxWorkers ∧
    (engineRun (initEngine requested hardwareConcurrency) ops).queue.length +
        (engineRun (initEngine requested hardwareConcurrency) ops).assigned +
        (engineRun (initEngine requested hardwareConcurrency) ops).cancelledFromQueue =
      (engineRun (initEngine requested hardwareConcurrency) ops).submitted := by
  have h := engineRun_accounting (initEngine requested hardwareConcurrency) ops
    ⟨by simp [initEngine], by simp [initEngine], by simp [initEngine]⟩
  exact ⟨le_trans h.1 h.2.1, h.2.2.symm⟩

/-- State after two submissions to a one-worker pool and a cancellation of
the still-queued second task. -/
def c7State : EngineState :=
  engineRun (initEngine (some 1) 4) [.submit idA [], .submit idB [], .cancel idB]

/-- C7 counterexample. After cancelling the queued second task the queue
is empty while two tasks were submitted and only one was assigned, so the
queued count does not equal submitted minus assigned. -/
theorem cancelled_task_breaks_queue_accounting :
    c7State.queue.length = 0 ∧ c7State.submitted = 2 ∧ c7State.assigned = 1 ∧
    c7State.queue.length ≠ c7State.submitted - c7State.assigned := by decide

/-! ### Claim C3 -/

theorem status_conclusion (o : Option OutputRecord) (r : OutputRecord)
    (ho : o = some r) (hs : r.status ≠ .running) :
    o.map OutputRecord.status ≠ none ∧ o.map OutputRecord.status ≠ some .running := by
  subst ho
  exact ⟨by simp, by simp [hs]⟩

theorem poolCancelCommand_store (s : EngineState) (id : JSString) :
    (poolCancelCommand s id).2.store = s.store := by
  unfold poolCancelCommand
  split
  · rfl
  · split
    · rfl
    · rfl

/-- Status evolution through one message handling: the record keeps a
non-running status. -/
theorem handleMsg_status (s : EngineState) (m : InboxMsg) (id : JSString)
    (r : OutputRecord) (h1 : getOutputById s.store id = some r)
    (h2 : r.status ≠ .running) :
    (getOutputById (handleMsg s m).store id).map OutputRecord.status ≠ none ∧
    (getOutputById (handleMsg s m).store id).map OutputRecord.status ≠ some .running := by
  unfold handleMsg
  split
  · exact status_conclusion _ r h1 h2
  · split
    · exact status_conclusion _ r h1 h2
    · rename_i d
      rw [getOutputById_updateStreamOutput_status]
      exact status_conclusion _ r h1 h2
    · rename_i w heq code
      rw [finishTask_store]
      unfold updateTaskCompletion
      by_cases he : id = m.id
      · subst he
        rw [getOutputById_updateOutput_self, h1]
        exact status_conclusion _ (applyUpdate r _)
          rfl (by simp [applyUpdate, noUpdate])
      · rw [getOutputById_updateOutput_ne _ _ _ _ he]
        exact status_conclusion _ r h1 h2
    · rename_i w heq msg
      rw [finishTask_store]
      unfold updateTaskError
      by_cases he : id = m.id
      · subst he
        rw [getOutputById_updateOutput_self, h1]
        exact status_conclusion _ (applyUpdate r _)
          rfl (by simp [applyUpdate, noUpdate])
      · rw [getOutputById_updateOutput_ne _ _ _ _ he]
        exact status_conclusion _ r h1 h2

/-- C3 amended. Once a record has left the running status, every engine
operation leaves it with some non-running status: the record always
exists afterwards and is never running again. Terminal statuses are not
final, however: a cancellation overlapping completion switches the record
between failed and completed (see the counterexample). -/
theorem terminal_status_never_reverts_to_running (s : EngineState) (op : EngineOp)
    (id : JSString) (r : OutputRecord)
    (h1 : getOutputById s.store id = some r) (h2 : r.status ≠ .running) :
    (getOutputById (engineStep s op).store id).map OutputRecord.status ≠ none ∧
    (getOutputById (engineStep s op).store id).map OutputRecord.status ≠ some .running := by
  cases op with
  | submit id2 cwd =>
    simp only [engineStep]
    by_cases hp : (getOutputById s.store id2).isSome
    · simp only [hp, if_true]
      exact status_conclusion _ r h1 h2
    · simp only [hp, Bool.false_eq_true, if_false]
      rw [processQueue_store]
      have hne : id ≠ id2 := by
        intro he
        rw [← he, h1] at hp
        simp at hp
      rw [getOutputById_insert_ne _ _ _ _ hne]
      exact status_conclusion _ r h1 h2
  | cancel id2 =>
    simp only [engineStep]
    by_cases hc : (poolCancelCommand s id2).1
    · simp only [hc, if_true]
      rw [poolCancelCommand_store]
      by_cases he : id = id2
      · subst he
        rw [getOutputById_updateOutput_self, h1]
        exact status_conclusion _ (applyUpdate r _) rfl
          (by simp [applyUpdate, noUpdate])
      · rw [getOutputById_updateOutput_ne _ _ _ _ he]
        exact status_conclusion _ r h1 h2
    · simp only [hc, Bool.false_eq_true, if_false]
      rw [poolCancelCommand_store]
      exact status_conclusion _ r h1 h2
  | postData wid stream content isEncoded =>
    have hst := postFromWorker_store s wid (.data ⟨stream, content, isEncoded⟩) false
    simp only [engineStep]
    rw [hst]
    exact status_conclusion _ r h1 h2
  | postComplete wid code =>
    have hst := postFromWorker_store s wid (.complete code) true
    simp only [engineStep]
    rw [hst]
    exact status_conclusion _ r h1 h2
  | postError wid msg =>
    have hst := postFromWorker_store s wid (.error msg) true
    simp only [engineStep]
    rw [hst]
    exact status_conclusion _ r h1 h2
  | deliver =>
    simp only [engineStep]
    cases hi : s.inbox with
    | nil => exact status_conclusion _ r h1 h2
    | cons m rest => exact handleMsg_status _ m id r h1 h2
  | crash wid =>
    simp only [engineStep]
    rw [processQueue_store]
    exact status_conclusion _ r h1 h2

/-- State reached by submitting idA, the worker posting completion, and a
cancellation arriving before the pool processes the completion message. -/
def c3State : EngineState :=
  engineRun (initEngine (some 1) 4) [.submit idA [], .postComplete 0 0, .cancel idA]

/-- C3 counterexample. After the cancellation the record is terminal with
status failed, yet delivering the in-flight completion message switches it
to completed with exit code 0: a terminal status is overwritten by a later
engine operation. -/
theorem cancel_completion_flips_status :
    (getOutputById c3State.store idA).map OutputRecord.status = some .failed ∧
    (getOutputById (engineStep c3State .deliver).store idA).map OutputRecord.status =
      some .completed ∧
    (getOutputById (engineStep c3State .deliver).store idA).map OutputRecord.exitCode =
      some (some 0) := by decide

/-- Engine state holding one already-failed record and nothing else. -/
def c3WitnessState : EngineState :=
  ⟨[(idA, ⟨[], false, strCodes "boom", false, .failed, some (-1), []⟩)],
    [], [], 1, 0, [], 0, 0, 0⟩

/-- C3 witness: the amended theorem applied to a failed record and a
deliver operation. -/
theorem terminal_status_never_reverts_to_running_witness :
    (getOutputById (engineStep c3WitnessState .deliver).store idA).map
      OutputRecord.status ≠ none ∧
    (getOutputById (engineStep c3WitnessState .deliver).store idA).map
      OutputRecord.status ≠ some .running :=
  terminal_status_never_reverts_to_running c3WitnessState .deliver idA
    ⟨[], false, strCodes "boom", false, .failed, some (-1), []⟩
    (by decide) (by decide)

/-! ### Claim C4 -/

/-- Handling an error message for a running task: the record turns
terminal failed with the sentinel exit code and stderr set to the error
message, the worker no longer holds the task, and a waiting queued task is
pulled. -/
theorem handleMsg_error_event (s : EngineState) (id msg : JSString)
    (w : WorkerInstance) (r : OutputRecord)
    (hw : s.workers.find? (fun w2 => decide (w2.currentTask = some id)) = some w)
    (hr : getOutputById s.store id = some r)
    (huniq : ∀ w2 ∈ s.workers, w2.currentTask = some id → w2.wid = w.wid)
    (hq : ∀ t ∈ s.queue, t.id ≠ id) :
    getOutputById (handleMsg s ⟨id, .error msg⟩).store id =
      some { r with status := .failed, stderr := msg, exitCode := some (-1 : Int) } ∧
    (∀ w2 ∈ (handleMsg s ⟨id, .error msg⟩).workers, w2.currentTask ≠ some id) ∧
    (s.queue ≠ [] → (handleMsg s ⟨id, .error msg⟩).queue.length + 1 = s.queue.length) := by
  have hred : handleMsg s ⟨id, .error msg⟩ =
      finishTask { s with store := updateTaskError s.store id msg } w.wid := by
    unfold handleMsg
    rw [hw]
  rw [hred]
  have hwmem : w ∈ s.workers := List.mem_of_find?_eq_some hw
  have hwcur : w.currentTask = some id := by
    have := List.find?_some hw
    simpa using this
  refine ⟨?_, ?_, ?_⟩
  · rw [finishTask_store]
    show getOutputById (updateTaskError s.store id msg) id = _
    unfold updateTaskError
    rw [getOutputById_updateOutput_self, hr]
    simp [applyUpdate, noUpdate]
  · intro w2 hw2
    unfold finishTask at hw2
    have hcases := processQueue_currentTask_cases _ w2 hw2
    rcases hcases with ⟨w0, hw0, hct⟩ | hct | ⟨t, ht, hct⟩
    · simp only [List.mem_map] at hw0
      obtain ⟨w1, hw1, heq1⟩ := hw0
      by_cases hwid : w1.wid = w.wid
      · rw [hct, ← heq1]
        simp [hwid]
      · rw [hct, ← heq1]
        simp only [hwid, if_false]
        intro hcontra
        exact hwid (huniq w1 hw1 hcontra)
    · simp [hct]
    · rw [hct]
      simp only [ne_eq, Option.some.injEq]
      exact hq t ht
  · intro hqne
    unfold finishTask
    have hpull := processQueue_pulls
      { s with
        store := updateTaskError s.store id msg,
        workers := s.workers.map (fun x =>
          if x.wid = w.wid then { x with busy := false, currentTask := none } else x) }
      hqne ?_
    · simpa using hpull
    · refine ⟨{ w with busy := false, currentTask := none }, ?_, rfl⟩
      simp only [List.mem_map]
      refine ⟨w, hwmem, ?_⟩
      simp

/-- C4 amended. When the pool receives a worker's failed event for a
running task, it updates the record to status failed with the sentinel
exit code -1 and stderr replaced by (not appended to) the error message,
releases the worker from the task, and pulls the next queued task. -/
theorem pool_error_event_updates_record (s : EngineState) (id msg : JSString)
    (rest : List InboxMsg) (w : WorkerInstance) (r : OutputRecord)
    (hinbox : s.inbox = ⟨id, .error msg⟩ :: rest)
    (hw : s.workers.find? (fun w2 => decide (w2.currentTask = some id)) = some w)
    (hr : getOutputById s.store id = some r)
    (huniq : ∀ w2 ∈ s.workers, w2.currentTask = some id → w2.wid = w.wid)
    (hq : ∀ t ∈ s.queue, t.id ≠ id) :
    getOutputById (engineStep s .deliver).store id =
      some { r with status := .failed, stderr := msg, exitCode := some (-1 : Int) } ∧
    (∀ w2 ∈ (engineStep s .deliver).workers, w2.currentTask ≠ some id) ∧
    (s.queue ≠ [] → (engineStep s .deliver).queue.length + 1 = s.queue.length) := by
  have hred : engineStep s .deliver =
      handleMsg { s with inbox := rest } ⟨id, .error msg⟩ := by
    simp only [engineStep, hinbox]
  rw [hred]
  exact handleMsg_error_event { s with inbox := rest } id msg w r hw hr huniq hq

/-- State after submitting idA to a one-worker pool, streaming the stderr
text x into its record, and the worker posting an error event. -/
def c4State : EngineState :=
  engineRun (initEngine (some 1) 4)
    [.submit idA [], .postData 0 .stderr (strCodes "x") false, .deliver,
     .postError 0 (strCodes "boom")]

/-- C4 counterexample. Before the error event the record's stderr holds
the streamed text x; handling the failed event overwrites stderr with the
bare error message rather than augmenting the existing content. -/
theorem error_event_replaces_stderr :
    (getOutputById c4State.store idA).map OutputRecord.stderr = some (strCodes "x") ∧
    (getOutputById (engineStep c4State .deliver).store idA).map OutputRecord.stderr =
      some (strCodes "boom") ∧
    strCodes "boom" ≠ strCodes "x" ++ strCodes "boom" := by decide

/-- Engine state with a running record, a worker executing it, a second
task waiting in the queue, and the worker's error message in flight. -/
def c4WitnessState : EngineState :=
  ⟨[(idA, ⟨[], false, [], false, .running, none, []⟩)],
    [⟨0, true, some idA, true⟩], [⟨idB⟩], 1, 1,
    [⟨idA, .error (strCodes "boom")⟩], 2, 1, 0⟩

/-- C4 witness: delivering the error event at a concrete state. -/
theorem pool_error_event_updates_record_witness :
    getOutputById (engineStep c4WitnessState .deliver).store idA =
      some ⟨[], false, strCodes "boom", false, .failed, some (-1), []⟩ ∧
    (∀ w2 ∈ (engineStep c4WitnessState .deliver).workers, w2.currentTask ≠ some idA) ∧
    (c4WitnessState.queue ≠ [] →
      (engineStep c4WitnessState .deliver).queue.length + 1 = c4WitnessState.queue.length) := by
  have h := pool_error_event_updates_record c4WitnessState idA (strCodes "boom")
    [] ⟨0, true, some idA, true⟩ ⟨[], false, [], false, .running, none, []⟩
    rfl (by decide) (by decide)
    (fun w2 hw2 hcur => by
      simp only [c4WitnessState, List.mem_singleton] at hw2
      rw [hw2])
    (fun t ht => by
      simp only [c4WitnessState, List.mem_singleton] at ht
      rw [ht]
      decide)
  exact h
